import Mathlib

/-!
Shallow embedding of the budget/expense computation engine of
`src/expense_tracker/app.py` (class `ExpenseTracker` and the free function
`calculate_statistics`), together with theorems checking the
natural-language specification against it.

Modelling conventions:
* Monetary amounts are modelled as `Int`.  The source stores them as Python
  floats, but every property checked here is exact arithmetic
  (sums, differences, comparisons), so an exact carrier is used.
* A pandas cell that may be missing or unparseable is modelled by `RawCell`:
  `null` (SQL NULL / NaN), `malformed` (a non-null value the parser rejects)
  or `ok v` (a parseable value, carried already parsed).  `pd.to_datetime`
  raises on a malformed value and maps NULL to `NaT`; `pd.to_numeric` with
  `errors` set to coerce
  maps both to `NaN`; `dropna` then removes `NaT`/`NaN` rows.  This mirrors
  the exact distinctions the load path can make.
* Python dicts are modelled as association lists with insertion-order keys
  and last-write-wins updates (`dictInsert`), matching dict comprehension
  and item-assignment semantics.  `groupby(..)[..].sum().to_dict()` is
  modelled by `groupSumByCategory`; pandas returns its keys sorted while the
  model keeps first-occurrence order, a difference no theorem below observes
  (only key lookups and value sums are used).
* `df.sort_values(col, ascending=False)` in pandas goes through `nargsort`,
  which for a descending sort reverses the values and the index array
  *before* the ascending argsort and reverses the resulting indexer *after*
  (the GH 6399 behaviour, pinned by pandas' own stable-descending-sort
  regression test): the double reversal makes equal keys keep their
  original frame order whenever the underlying argsort is stable.  It is
  modelled here as reverse → stable ascending insertion sort → reverse,
  with the argsort taken as stable (numpy's default sort is insertion
  sort — hence stable — on the small frames of every concrete case here).
* Raising an exception is modelled by `Except.error`; a function that raises
  before mutating returns `Except.error` and leaves the caller's state (the
  ledger value it was given) untouched.
-/

/-- A calendar date as used by `st.date_input` / `datetime.date`. -/
structure EDate where
  year : Nat
  month : Nat
  day : Nat
deriving DecidableEq, Repr

/-- Left-pad the decimal representation of `n` with zeros to width `w`. -/
def padNat (w : Nat) (n : Nat) : String :=
  let s := toString n
  String.mk (List.replicate (w - s.length) '0') ++ s

/-- Python `d.strftime("%Y-%m")`. -/
def fmtYearMonth (d : EDate) : String :=
  padNat 4 d.year ++ "-" ++ padNat 2 d.month

/-- A stored cell: present and parseable, present but unparseable, or NULL. -/
inductive RawCell (α : Type) where
  | null : RawCell α
  | malformed : RawCell α
  | ok : α → RawCell α
deriving DecidableEq, Repr

/-- Forgetting parse failures: `to_numeric(errors="coerce")` turns both
`null` and `malformed` into NaN, modelled as `none`. -/
def rawToOption {α : Type} : RawCell α → Option α
  | RawCell.ok a => some a
  | _ => none

/-- One row of the `budgets` table: `category, subcategory, amount`. -/
structure BudgetRow where
  category : String
  subcategory : Option String
  amount : Int
deriving DecidableEq, Repr

/-- The in-memory `budgets_df` data frame. -/
abbrev BudgetTable := List BudgetRow

/-- One row of the `expenses` table / `expenses_df`:
`date, category, amount, month, year`.  `date` and `amount` and `year` are
raw cells because the load path parses them defensively. -/
structure StoredEntry where
  date : RawCell EDate
  category : String
  amount : RawCell Int
  month : String
  year : RawCell Int
deriving DecidableEq, Repr

/-- A row of the cleaned frame returned by `get_expenses_df`
(dates parsed, amounts numeric, `year` possibly NaN). -/
structure Entry where
  date : EDate
  category : String
  amount : Int
  month : String
  year : Option Int
deriving DecidableEq, Repr

/-- The row selection `budgets_df[budgets_df["category"] == c]`. -/
def categoryRows (c : String) (t : BudgetTable) : List BudgetRow :=
  t.filter (fun r => decide (r.category = c))

/-- The scalar read `df[df["category"] == c]["amount"].iloc[0] if not ... .empty else 0` —
the scalar-row read used for `Salary`, `Flexible Budget` and `Savings`. -/
def firstAmount (c : String) (t : BudgetTable) : Int :=
  match categoryRows c t with
  | [] => 0
  | r :: _ => r.amount

/-- The generator sum `sum(row["amount"] for _, row in df[df["category"] == c].iterrows()
if pd.notna(row["subcategory"]))` — the row-wise totals used by
`calculate_flexible_budget`. -/
def rowTotal (c : String) (t : BudgetTable) : Int :=
  (((categoryRows c t).filter (fun r => r.subcategory.isSome)).map
    (fun r => r.amount)).sum

/-- The list `tracker.flexible_categories`: the non-null subcategories of the
`Flexible` rows, in table order (duplicates kept, as `tolist()` does). -/
def flexible_categories (t : BudgetTable) : List String :=
  (categoryRows "Flexible" t).filterMap (fun r => r.subcategory)

/-- The per-row update performed by `calculate_flexible_budget`:
`.loc[category == "Flexible Budget", "amount"] = flexible_total` and
`.loc[category == "Savings", "amount"] = salary - (mandatory_total +
flexible_total)`. -/
def recalcFun (ft sv : Int) (r : BudgetRow) : BudgetRow :=
  if r.category = "Flexible Budget" then { r with amount := ft }
  else if r.category = "Savings" then { r with amount := sv }
  else r

/-- Method `ExpenseTracker.calculate_flexible_budget` (the in-memory effect on
`budgets_df`; the SQL `UPDATE` writes the same two scalars back). -/
def calculate_flexible_budget (t : BudgetTable) : BudgetTable :=
  let mandatory_total := rowTotal "Mandatory" t
  let flexible_total := rowTotal "Flexible" t
  let salary := firstAmount "Salary" t
  t.map (recalcFun flexible_total (salary - (mandatory_total + flexible_total)))

/-- Python dict item assignment `d[k] = v`: overwrite in place if the key
exists (keeping its position), otherwise append. -/
def dictInsert (d : List (String × Int)) (k : String) (v : Int) :
    List (String × Int) :=
  if d.any (fun p => decide (p.1 = k)) then
    d.map (fun p => if p.1 = k then (p.1, v) else p)
  else d ++ [(k, v)]

/-- Python `d.get(k, v0)`. -/
def dictGetD (d : List (String × Int)) (k : String) (v0 : Int) : Int :=
  match d.find? (fun p => decide (p.1 = k)) with
  | some p => p.2
  | none => v0

/-- The `"Mandatory"` dict comprehension in `get_budgets`. -/
def mandatoryDict (t : BudgetTable) : List (String × Int) :=
  (categoryRows "Mandatory" t).foldl
    (fun d r =>
      match r.subcategory with
      | some sub => dictInsert d sub r.amount
      | none => d) []

/-- The unpacking `main_cat, sub_cat = sub.split(":") if ":" in sub else ("Other", sub)`.
Python `str.split(":")` splits on every colon; tuple unpacking into two
variables succeeds only when the result has exactly two parts, i.e. the key
holds exactly one colon.  A key with two or more colons raises
`ValueError: too many values to unpack`. -/
def splitParts (sep : Char) : List Char → List (List Char)
  | [] => [[]]
  | c :: rest =>
    match splitParts sep rest with
    | [] => [[c]]
    | p :: ps => if c = sep then [] :: p :: ps else (c :: p) :: ps

/-- The flexible-key split of `get_budgets` (source lines 150–156). -/
def splitFlexibleKey (key : String) : Except String (String × String) :=
  if ':' ∈ key.data then
    match (splitParts ':' key.data).map String.mk with
    | [a, b] => Except.ok (a, b)
    | _ => Except.error "too many values to unpack"
  else Except.ok ("Other", key)

/-- The assignment `budgets["Flexible"][main][sub] = amount` on the nested dict. -/
def nestInsert (d : List (String × List (String × Int)))
    (main sub : String) (amt : Int) : List (String × List (String × Int)) :=
  if d.any (fun p => decide (p.1 = main)) then
    d.map (fun p => if p.1 = main then (p.1, dictInsert p.2 sub amt) else p)
  else d ++ [(main, [(sub, amt)])]

/-- The loop over `flexible_rows` in `get_budgets`, threading the possible
unpacking failure of `splitFlexibleKey` through the remaining rows. -/
def buildFlexibleAux : List BudgetRow → List (String × List (String × Int)) →
    Except String (List (String × List (String × Int)))
  | [], d => Except.ok d
  | r :: rs, d =>
    match r.subcategory with
    | some sub =>
      match splitFlexibleKey sub with
      | Except.ok (main, s) => buildFlexibleAux rs (nestInsert d main s r.amount)
      | Except.error e => Except.error e
    | none => buildFlexibleAux rs d

/-- The nested `"Flexible"` dict assembled by `get_budgets`. -/
def buildFlexibleDict (t : BudgetTable) :
    Except String (List (String × List (String × Int))) :=
  buildFlexibleAux (categoryRows "Flexible" t) []

/-- The dictionary returned by `ExpenseTracker.get_budgets`. -/
structure Budgets where
  salary : Int
  mandatory : List (String × Int)
  flexible : List (String × List (String × Int))
  flexibleBudget : Int
  savings : Int
deriving DecidableEq, Repr

/-- Method `ExpenseTracker.get_budgets`. -/
def get_budgets (t : BudgetTable) : Except String Budgets :=
  match buildFlexibleDict t with
  | Except.error e => Except.error e
  | Except.ok flex =>
    Except.ok
      { salary := firstAmount "Salary" t
        mandatory := mandatoryDict t
        flexible := flex
        flexibleBudget := firstAmount "Flexible Budget" t
        savings := firstAmount "Savings" t }

/-- The entry dict built by `add_expense`. -/
def mkStoredEntry (d : EDate) (category : String) (amount : Int) : StoredEntry :=
  { date := RawCell.ok d
    category := category
    amount := RawCell.ok amount
    month := fmtYearMonth d
    year := RawCell.ok (Int.ofNat d.year) }

/-- Method `ExpenseTracker.add_expense`: raises `ValueError` on a non-positive
amount (before touching the ledger or the store), otherwise appends the new
entry and persists.  The `Except.error` result models the raise: the
caller's ledger value is not replaced and `save_expenses` is never
reached. -/
def add_expense (ledger : List StoredEntry) (date_val : EDate)
    (category : String) (amount : Int) : Except String (List StoredEntry) :=
  if amount ≤ 0 then Except.error "Amount must be positive."
  else Except.ok (ledger ++ [mkStoredEntry date_val category amount])

/-- Does `pd.to_datetime` raise on this cell?  (It raises on a present but
unparseable value and maps NULL to `NaT`.) -/
def has_malformed_date (e : StoredEntry) : Bool :=
  match e.date with
  | RawCell.malformed => true
  | _ => false

/-- The row survives `dropna(subset=["amount", "date"])` iff both its date
and its amount parsed; then it appears with parsed fields. -/
def parse_row (e : StoredEntry) : Option Entry :=
  match e.date, e.amount with
  | RawCell.ok d, RawCell.ok a =>
    some { date := d, category := e.category, amount := a, month := e.month,
           year := rawToOption e.year }
  | _, _ => none

/-- Method `ExpenseTracker.get_expenses_df`: `pd.to_datetime(df["date"])` raises if
any date cell is present but unparseable; otherwise amounts are coerced
(`errors="coerce"`) and rows with NaN amount or NaT date are dropped. -/
def get_expenses_df (ledger : List StoredEntry) : Except String (List Entry) :=
  if ledger.any has_malformed_date then Except.error "unparseable date"
  else Except.ok (ledger.filterMap parse_row)

/-- The selection `df[df["month"] == current_month]` with `current_month =
datetime.now().strftime("%Y-%m")`, the clock being the `asOf` parameter. -/
def current_month_df (df : List Entry) (asOf : EDate) : List Entry :=
  df.filter (fun e => decide (e.month = fmtYearMonth asOf))

/-- Accumulate one amount into a category bucket (the elementary step of a
`groupby(..).sum()`): add into the existing bucket, or open a new one. -/
def dictAdd (d : List (String × Int)) (k : String) (v : Int) :
    List (String × Int) :=
  if d.any (fun p => decide (p.1 = k)) then
    d.map (fun p => if p.1 = k then (p.1, p.2 + v) else p)
  else d ++ [(k, v)]

/-- The aggregation `df.groupby("category")["amount"].sum().to_dict()`.  (pandas returns
the keys sorted; the model keeps first-occurrence order — no theorem below
observes key order, only lookups and value sums.) -/
def groupSumByCategory (l : List Entry) : List (String × Int) :=
  l.foldl (fun d e => dictAdd d e.category e.amount) []

/-- The dict `current_month_df.groupby("category")["amount"].sum().to_dict()`
(guarded by the `.empty` test as in the source). -/
def monthly_by_category_of (df : List Entry) (asOf : EDate) :
    List (String × Int) :=
  if (current_month_df df asOf).isEmpty then []
  else groupSumByCategory (current_month_df df asOf)

/-- The sum `sum(monthly_by_category.get(cat, 0) for cat in
tracker.flexible_categories)`. -/
def flexible_spent_of (t : BudgetTable) (df : List Entry) (asOf : EDate) : Int :=
  ((flexible_categories t).map
    (fun cat => dictGetD (monthly_by_category_of df asOf) cat 0)).sum

/-- Stable ascending insertion by amount: place `e` before the first
element whose amount is not smaller.  Elements already in the list came
later in the original frame, so this is exactly a stable ascending sort
when folded right-to-left. -/
def insAsc (e : Entry) : List Entry → List Entry
  | [] => [e]
  | x :: xs => if x.amount < e.amount then x :: insAsc e xs else e :: x :: xs

/-- Stable ascending sort by amount (numpy's stable ascending argsort of the
`amount` column, applied to the rows). -/
def sortAscByAmount : List Entry → List Entry
  | [] => []
  | e :: es => insAsc e (sortAscByAmount es)

/-- The frame `current_month_df.sort_values("amount", ascending=False).head(5)`:
pandas' `nargsort` implements the descending sort by reversing the rows,
argsorting ascending, and reversing the resulting indexer again (GH 6399),
so with a stable underlying argsort equal-amount rows keep their original
frame order in the descending output. -/
def top_expenses_of (df : List Entry) (asOf : EDate) : List Entry :=
  ((sortAscByAmount (current_month_df df asOf).reverse).reverse).take 5

/-- The dict returned by `calculate_statistics`. -/
structure Stats where
  today_total : Int
  monthly_total : Int
  flexible_spent : Int
  flexible_remaining : Int
  savings : Int
  monthly_by_category : List (String × Int)
  top_expenses : List Entry
deriving DecidableEq, Repr

/-- The non-empty-frame branch of `calculate_statistics`. -/
def stats_core (df : List Entry) (t : BudgetTable) (budgets : Budgets)
    (asOf : EDate) : Stats :=
  let mandatory_total := (budgets.mandatory.map (fun p => p.2)).sum
  let today_df := df.filter (fun e => decide (e.date = asOf))
  let today_total := if today_df.isEmpty then 0
    else (today_df.map (fun e => e.amount)).sum
  let flexible_spent := flexible_spent_of t df asOf
  let monthly_total := if (current_month_df df asOf).isEmpty then 0
    else ((current_month_df df asOf).map (fun e => e.amount)).sum
  { today_total := today_total
    monthly_total := monthly_total
    flexible_spent := flexible_spent
    flexible_remaining := budgets.flexibleBudget - flexible_spent
    savings := budgets.salary - mandatory_total - flexible_spent
    monthly_by_category := monthly_by_category_of df asOf
    top_expenses := top_expenses_of df asOf }

/-- Function `calculate_statistics(df, tracker)` with the wall clock (`datetime.now`
/ `date.today`) passed explicitly as `asOf`.  The budgets dict is read
first (so a failing `get_budgets` propagates), then the empty-frame branch
returns the static defaults. -/
def calculate_statistics (df : List Entry) (t : BudgetTable) (asOf : EDate) :
    Except String Stats :=
  match get_budgets t with
  | Except.error e => Except.error e
  | Except.ok budgets =>
    if df.isEmpty then
      Except.ok
        { today_total := 0
          monthly_total := 0
          flexible_spent := 0
          flexible_remaining := budgets.flexibleBudget
          savings := budgets.savings
          monthly_by_category := []
          top_expenses := [] }
    else Except.ok (stats_core df t budgets asOf)

/-- The dashboard pipeline: `df = tracker.get_expenses_df(); stats =
calculate_statistics(df, tracker)`. -/
def pipeline_statistics (ledger : List StoredEntry) (t : BudgetTable)
    (asOf : EDate) : Except String Stats :=
  match get_expenses_df ledger with
  | Except.error e => Except.error e
  | Except.ok df => calculate_statistics df t asOf

/-- The spec's own wording for `flexibleSpent`: the sum over
`monthlyByCategory` restricted to keys present in the flexible category
list (refinement reference, compared against the code's
`flexible_spent_of`). -/
def specFlexibleSpent (mbc : List (String × Int)) (cats : List String) : Int :=
  ((mbc.filter (fun p => decide (p.1 ∈ cats))).map (fun p => p.2)).sum

/-- Boolean success test for `Except`. -/
def exceptOk {ε α : Type} : Except ε α → Bool
  | Except.ok _ => true
  | Except.error _ => false

instance {ε α : Type} [DecidableEq ε] [DecidableEq α] :
    DecidableEq (Except ε α) := fun x y =>
  match x, y with
  | Except.ok a, Except.ok b =>
    if h : a = b then Decidable.isTrue (congrArg Except.ok h)
    else Decidable.isFalse (fun hc => h (Except.ok.inj hc))
  | Except.error a, Except.error b =>
    if h : a = b then Decidable.isTrue (congrArg Except.error h)
    else Decidable.isFalse (fun hc => h (Except.error.inj hc))
  | Except.ok _, Except.error _ =>
    Decidable.isFalse (fun hc => Except.noConfusion hc)
  | Except.error _, Except.ok _ =>
    Decidable.isFalse (fun hc => Except.noConfusion hc)

/-! ### Lemmas about `calculate_flexible_budget` -/

theorem recalcFun_category (ft sv : Int) (r : BudgetRow) :
    (recalcFun ft sv r).category = r.category := by
  unfold recalcFun; split <;> try rfl
  split <;> rfl

theorem recalcFun_subcategory (ft sv : Int) (r : BudgetRow) :
    (recalcFun ft sv r).subcategory = r.subcategory := by
  unfold recalcFun; split <;> try rfl
  split <;> rfl

theorem recalcFun_other (ft sv : Int) (r : BudgetRow)
    (h1 : r.category ≠ "Flexible Budget") (h2 : r.category ≠ "Savings") :
    recalcFun ft sv r = r := by
  unfold recalcFun
  rw [if_neg h1, if_neg h2]

theorem recalcFun_idem (ft sv : Int) (r : BudgetRow) :
    recalcFun ft sv (recalcFun ft sv r) = recalcFun ft sv r := by
  unfold recalcFun
  by_cases h1 : r.category = "Flexible Budget"
  · simp [h1]
  · by_cases h2 : r.category = "Savings" <;> simp [h1, h2]

theorem map_id_of_mem {α : Type} (l : List α) (f : α → α)
    (h : ∀ a ∈ l, f a = a) : l.map f = l := by
  induction l with
  | nil => rfl
  | cons x xs ih =>
    simp only [List.map_cons, h x (List.mem_cons_self x xs)]
    rw [ih (fun a ha => h a (List.mem_cons_of_mem x ha))]

theorem categoryRows_map_recalcFun (c : String) (ft sv : Int) (t : BudgetTable) :
    categoryRows c (t.map (recalcFun ft sv)) =
      (categoryRows c t).map (recalcFun ft sv) := by
  unfold categoryRows
  rw [List.filter_map]
  congr 1
  apply List.filter_congr
  intro r hr
  simp [Function.comp, recalcFun_category]

theorem categoryRows_recalc_other (c : String) (ft sv : Int) (t : BudgetTable)
    (h1 : c ≠ "Flexible Budget") (h2 : c ≠ "Savings") :
    categoryRows c (t.map (recalcFun ft sv)) = categoryRows c t := by
  rw [categoryRows_map_recalcFun]
  apply map_id_of_mem
  intro r hr
  have hc : r.category = c := by
    have := List.mem_filter.mp hr
    exact of_decide_eq_true this.2
  exact recalcFun_other ft sv r (hc ▸ h1) (hc ▸ h2)

theorem firstAmount_recalc_other (c : String) (ft sv : Int) (t : BudgetTable)
    (h1 : c ≠ "Flexible Budget") (h2 : c ≠ "Savings") :
    firstAmount c (t.map (recalcFun ft sv)) = firstAmount c t := by
  unfold firstAmount
  rw [categoryRows_recalc_other c ft sv t h1 h2]

theorem rowTotal_recalc_other (c : String) (ft sv : Int) (t : BudgetTable)
    (h1 : c ≠ "Flexible Budget") (h2 : c ≠ "Savings") :
    rowTotal c (t.map (recalcFun ft sv)) = rowTotal c t := by
  unfold rowTotal
  rw [categoryRows_recalc_other c ft sv t h1 h2]

theorem flexible_categories_recalc (ft sv : Int) (t : BudgetTable) :
    flexible_categories (t.map (recalcFun ft sv)) = flexible_categories t := by
  unfold flexible_categories
  rw [categoryRows_recalc_other "Flexible" ft sv t (by decide) (by decide)]

theorem mandatoryDict_recalc (ft sv : Int) (t : BudgetTable) :
    mandatoryDict (t.map (recalcFun ft sv)) = mandatoryDict t := by
  unfold mandatoryDict
  rw [categoryRows_recalc_other "Mandatory" ft sv t (by decide) (by decide)]

theorem categoryRows_ne_nil_of_exists (c : String) (t : BudgetTable)
    (h : ∃ r ∈ t, r.category = c) : categoryRows c t ≠ [] := by
  intro hnil
  obtain ⟨r, hr, hc⟩ := h
  have := List.filter_eq_nil_iff.mp hnil r hr
  simp [hc] at this

theorem firstAmount_recalc_FB (ft sv : Int) (t : BudgetTable)
    (h : ∃ r ∈ t, r.category = "Flexible Budget") :
    firstAmount "Flexible Budget" (t.map (recalcFun ft sv)) = ft := by
  unfold firstAmount
  rw [categoryRows_map_recalcFun]
  cases hrows : categoryRows "Flexible Budget" t with
  | nil => exact absurd hrows (categoryRows_ne_nil_of_exists _ t h)
  | cons r rest =>
    have hr : r ∈ categoryRows "Flexible Budget" t := by
      rw [hrows]; exact List.mem_cons_self r rest
    have hc : r.category = "Flexible Budget" :=
      of_decide_eq_true (List.mem_filter.mp hr).2
    simp only [List.map_cons]
    unfold recalcFun
    rw [if_pos hc]

theorem firstAmount_recalc_Savings (ft sv : Int) (t : BudgetTable)
    (h : ∃ r ∈ t, r.category = "Savings") :
    firstAmount "Savings" (t.map (recalcFun ft sv)) = sv := by
  unfold firstAmount
  rw [categoryRows_map_recalcFun]
  cases hrows : categoryRows "Savings" t with
  | nil => exact absurd hrows (categoryRows_ne_nil_of_exists _ t h)
  | cons r rest =>
    have hr : r ∈ categoryRows "Savings" t := by
      rw [hrows]; exact List.mem_cons_self r rest
    have hc : r.category = "Savings" :=
      of_decide_eq_true (List.mem_filter.mp hr).2
    simp only [List.map_cons]
    unfold recalcFun
    rw [if_neg (by rw [hc]; decide), if_pos hc]

theorem calculate_flexible_budget_idem (t : BudgetTable) :
    calculate_flexible_budget (calculate_flexible_budget t) =
      calculate_flexible_budget t := by
  unfold calculate_flexible_budget
  rw [rowTotal_recalc_other "Mandatory" _ _ t (by decide) (by decide),
    rowTotal_recalc_other "Flexible" _ _ t (by decide) (by decide),
    firstAmount_recalc_other "Salary" _ _ t (by decide) (by decide),
    List.map_map]
  apply List.map_congr_left
  intro r _
  exact recalcFun_idem _ _ r

/-! ### Lemmas about the dictionaries of `get_budgets` -/

/-- The non-null `Mandatory` subcategory names, in table order. -/
def mandNames (t : BudgetTable) : List String :=
  (categoryRows "Mandatory" t).filterMap (fun r => r.subcategory)

/-- The (name, amount) pairs of the rows with a non-null subcategory. -/
def pairsOf (rs : List BudgetRow) : List (String × Int) :=
  rs.filterMap (fun r => r.subcategory.map (fun s => (s, r.amount)))

theorem pairsOf_keys (rs : List BudgetRow) :
    (pairsOf rs).map (fun p => p.1) = rs.filterMap (fun r => r.subcategory) := by
  induction rs with
  | nil => rfl
  | cons r rest ih =>
    cases h : r.subcategory with
    | none => simp [pairsOf, List.filterMap_cons, h] at ih ⊢; exact ih
    | some s => simp [pairsOf, List.filterMap_cons, h] at ih ⊢; exact ih

theorem pairsOf_values_sum (rs : List BudgetRow) :
    ((pairsOf rs).map (fun p => p.2)).sum =
      ((rs.filter (fun r => r.subcategory.isSome)).map (fun r => r.amount)).sum := by
  induction rs with
  | nil => rfl
  | cons r rest ih =>
    cases h : r.subcategory with
    | none => simp [pairsOf, List.filterMap_cons, List.filter_cons, h] at ih ⊢; exact ih
    | some s => simp [pairsOf, List.filterMap_cons, List.filter_cons, h] at ih ⊢; omega

theorem dictInsert_fresh (d : List (String × Int)) (k : String) (v : Int)
    (h : k ∉ d.map (fun p => p.1)) : dictInsert d k v = d ++ [(k, v)] := by
  unfold dictInsert
  rw [if_neg]
  intro hany
  obtain ⟨p, hp, hpk⟩ := List.any_eq_true.mp hany
  exact h (List.mem_map.mpr ⟨p, hp, of_decide_eq_true hpk⟩)

theorem foldl_dictInsert_append (rs : List BudgetRow) (acc : List (String × Int))
    (hnd : ((pairsOf rs).map (fun p => p.1)).Nodup)
    (hdisj : ∀ k ∈ (pairsOf rs).map (fun p => p.1), k ∉ acc.map (fun p => p.1)) :
    rs.foldl
      (fun d r =>
        match r.subcategory with
        | some sub => dictInsert d sub r.amount
        | none => d) acc = acc ++ pairsOf rs := by
  induction rs generalizing acc with
  | nil => simp [pairsOf]
  | cons r rest ih =>
    cases h : r.subcategory with
    | none =>
      have hpairs : pairsOf (r :: rest) = pairsOf rest := by
        simp [pairsOf, List.filterMap_cons, h]
      rw [hpairs] at hnd hdisj
      simp only [List.foldl_cons, h]
      rw [hpairs]
      exact ih acc hnd hdisj
    | some s =>
      have hpairs : pairsOf (r :: rest) = (s, r.amount) :: pairsOf rest := by
        simp [pairsOf, List.filterMap_cons, h]
      rw [hpairs] at hnd hdisj
      simp only [List.map_cons, List.nodup_cons] at hnd
      have hfresh : s ∉ acc.map (fun p => p.1) :=
        hdisj s (by simp)
      simp only [List.foldl_cons, h]
      rw [dictInsert_fresh acc s r.amount hfresh]
      rw [ih (acc ++ [(s, r.amount)]) hnd.2]
      · rw [hpairs, List.append_assoc]; rfl
      · intro k hk
        intro hc
        simp only [List.map_append, List.mem_append] at hc
        rcases hc with hc | hc
        · exact hdisj k (by simp [hk]) hc
        · simp at hc
          exact hnd.1 (hc ▸ hk)

theorem mandatoryDict_eq_pairs (t : BudgetTable)
    (h : (mandNames t).Nodup) :
    mandatoryDict t = pairsOf (categoryRows "Mandatory" t) := by
  unfold mandatoryDict
  rw [foldl_dictInsert_append _ []]
  · rfl
  · rw [pairsOf_keys]; exact h
  · intro k _ hk
    simp at hk

theorem mandatoryDict_sum_of_nodup (t : BudgetTable)
    (h : (mandNames t).Nodup) :
    ((mandatoryDict t).map (fun p => p.2)).sum = rowTotal "Mandatory" t := by
  rw [mandatoryDict_eq_pairs t h, pairsOf_values_sum]
  rfl

/-! ### Lemmas about `groupSumByCategory` and the flexible-spend sum -/

theorem dictAdd_keys_nodup (d : List (String × Int)) (k : String) (v : Int)
    (h : (d.map (fun p => p.1)).Nodup) :
    ((dictAdd d k v).map (fun p => p.1)).Nodup := by
  unfold dictAdd
  split
  · have : ((d.map (fun p => if p.1 = k then (p.1, p.2 + v) else p)).map
        (fun p => p.1)) = d.map (fun p => p.1) := by
      rw [List.map_map]
      apply List.map_congr_left
      intro p _
      by_cases hp : p.1 = k <;> simp [hp]
    rw [this]
    exact h
  · rename_i hany
    have hk : k ∉ d.map (fun p => p.1) := by
      intro hmem
      obtain ⟨p, hp, hpk⟩ := List.mem_map.mp hmem
      exact hany (List.any_eq_true.mpr ⟨p, hp, decide_eq_true hpk⟩)
    simp [List.nodup_append, h, hk]

theorem foldl_dictAdd_keys_nodup (l : List Entry) (acc : List (String × Int))
    (h : (acc.map (fun p => p.1)).Nodup) :
    ((l.foldl (fun d e => dictAdd d e.category e.amount) acc).map
      (fun p => p.1)).Nodup := by
  induction l generalizing acc with
  | nil => exact h
  | cons e es ih =>
    simp only [List.foldl_cons]
    exact ih _ (dictAdd_keys_nodup acc e.category e.amount h)

theorem groupSum_keys_nodup (l : List Entry) :
    ((groupSumByCategory l).map (fun p => p.1)).Nodup :=
  foldl_dictAdd_keys_nodup l [] (by simp)

theorem monthly_by_category_keys_nodup (df : List Entry) (asOf : EDate) :
    ((monthly_by_category_of df asOf).map (fun p => p.1)).Nodup := by
  unfold monthly_by_category_of
  split
  · simp
  · exact groupSum_keys_nodup _

theorem filter_key_nil (d : List (String × Int)) (c : String)
    (h : c ∉ d.map (fun p => p.1)) :
    d.filter (fun p => decide (p.1 = c)) = [] := by
  apply List.filter_eq_nil_iff.mpr
  intro p hp
  simp only [decide_eq_true_eq]
  intro hpc
  exact h (List.mem_map.mpr ⟨p, hp, hpc⟩)

theorem dictGetD_eq_filter_sum (d : List (String × Int)) (c : String)
    (h : (d.map (fun p => p.1)).Nodup) :
    ((d.filter (fun p => decide (p.1 = c))).map (fun p => p.2)).sum =
      dictGetD d c 0 := by
  induction d with
  | nil => rfl
  | cons p rest ih =>
    simp only [List.map_cons, List.nodup_cons] at h
    by_cases hp : p.1 = c
    · have hrest : rest.filter (fun q => decide (q.1 = c)) = [] :=
        filter_key_nil rest c (hp ▸ h.1)
      simp [List.filter_cons, hp, hrest, dictGetD, List.find?]
    · simp only [List.filter_cons, decide_eq_true_eq]
      rw [if_neg hp]
      rw [ih h.2]
      simp [dictGetD, List.find?, hp]

theorem sum_filter_or {α : Type} (l : List α) (f : α → Int) (P Q : α → Bool)
    (h : ∀ a ∈ l, ¬(P a = true ∧ Q a = true)) :
    ((l.filter (fun a => P a || Q a)).map f).sum =
      ((l.filter P).map f).sum + ((l.filter Q).map f).sum := by
  induction l with
  | nil => rfl
  | cons a rest ih =>
    have hrest : ∀ b ∈ rest, ¬(P b = true ∧ Q b = true) :=
      fun b hb => h b (List.mem_cons_of_mem a hb)
    have ha := h a (List.mem_cons_self a rest)
    by_cases hPa : P a = true
    · have hQa : Q a = false := by
        cases hq : Q a
        · rfl
        · exact absurd ⟨hPa, hq⟩ ha
      simp [List.filter_cons, hPa, hQa, ih hrest]
      omega
    · have hPa' : P a = false := by cases hp : P a; rfl; exact absurd hp hPa
      by_cases hQa : Q a = true
      · simp [List.filter_cons, hPa', hQa, ih hrest]
        omega
      · have hQa' : Q a = false := by cases hq : Q a; rfl; exact absurd hq hQa
        simp [List.filter_cons, hPa', hQa', ih hrest]

theorem listGet_sum_eq_restriction (mbc : List (String × Int)) (cats : List String)
    (hk : (mbc.map (fun p => p.1)).Nodup) (hc : cats.Nodup) :
    (cats.map (fun c => dictGetD mbc c 0)).sum =
      ((mbc.filter (fun p => decide (p.1 ∈ cats))).map (fun p => p.2)).sum := by
  induction cats with
  | nil => simp
  | cons c cs ih =>
    simp only [List.nodup_cons] at hc
    have hsplit : mbc.filter (fun p => decide (p.1 ∈ c :: cs)) =
        mbc.filter (fun p => decide (p.1 = c) || decide (p.1 ∈ cs)) := by
      apply List.filter_congr
      intro p _
      simp [List.mem_cons]
    rw [hsplit, List.map_cons, List.sum_cons,
      sum_filter_or mbc (fun p => p.2) _ _ ?hdisj,
      dictGetD_eq_filter_sum mbc c hk, ih hc.2]
    case hdisj =>
      intro p _
      simp only [decide_eq_true_eq]
      intro ⟨h1, h2⟩
      exact hc.1 (h1 ▸ h2)

/-! ### Lemmas about the descending sort behind `top_expenses` -/

theorem insAsc_perm (e : Entry) (l : List Entry) :
    List.Perm (insAsc e l) (e :: l) := by
  induction l with
  | nil => simp [insAsc]
  | cons x xs ih =>
    unfold insAsc
    by_cases h : x.amount < e.amount
    · rw [if_pos h]
      exact (List.Perm.cons x ih).trans (List.Perm.swap e x xs)
    · rw [if_neg h]

theorem sortAsc_perm (l : List Entry) :
    List.Perm (sortAscByAmount l) l := by
  induction l with
  | nil => simp [sortAscByAmount]
  | cons e es ih =>
    unfold sortAscByAmount
    exact (insAsc_perm e (sortAscByAmount es)).trans (List.Perm.cons e ih)

theorem mem_insAsc (a e : Entry) (l : List Entry) :
    a ∈ insAsc e l ↔ a = e ∨ a ∈ l := by
  rw [(insAsc_perm e l).mem_iff, List.mem_cons]

theorem insAsc_pairwise (e : Entry) (l : List Entry)
    (h : l.Pairwise (fun a b => a.amount ≤ b.amount)) :
    (insAsc e l).Pairwise (fun a b => a.amount ≤ b.amount) := by
  induction l with
  | nil => simp [insAsc]
  | cons x xs ih =>
    rw [List.pairwise_cons] at h
    unfold insAsc
    by_cases hlt : x.amount < e.amount
    · rw [if_pos hlt]
      rw [List.pairwise_cons]
      refine ⟨?_, ih h.2⟩
      intro y hy
      rcases (mem_insAsc y e xs).mp hy with rfl | hy
      · omega
      · exact h.1 y hy
    · rw [if_neg hlt]
      rw [List.pairwise_cons]
      refine ⟨?_, List.pairwise_cons.mpr h⟩
      intro y hy
      rcases List.mem_cons.mp hy with rfl | hy
      · omega
      · have := h.1 y hy
        omega

theorem sortAsc_pairwise (l : List Entry) :
    (sortAscByAmount l).Pairwise (fun a b => a.amount ≤ b.amount) := by
  induction l with
  | nil => simp [sortAscByAmount]
  | cons e es ih => exact insAsc_pairwise e (sortAscByAmount es) ih

theorem insAsc_filter_amount (e : Entry) (l : List Entry) (v : Int)
    (hsorted : l.Pairwise (fun a b => a.amount ≤ b.amount)) :
    (insAsc e l).filter (fun x => decide (x.amount = v)) =
      if e.amount = v then e :: l.filter (fun x => decide (x.amount = v))
      else l.filter (fun x => decide (x.amount = v)) := by
  induction l with
  | nil =>
    by_cases h : e.amount = v <;> simp [insAsc, List.filter, h]
  | cons x xs ih =>
    rw [List.pairwise_cons] at hsorted
    unfold insAsc
    by_cases hlt : x.amount < e.amount
    · rw [if_pos hlt]
      by_cases hev : e.amount = v
      · have hxv : ¬(x.amount = v) := by omega
        simp only [List.filter_cons, decide_eq_true_eq, if_neg hxv, if_pos hev]
        rw [ih hsorted.2, if_pos hev]
      · simp only [List.filter_cons, decide_eq_true_eq]
        rw [ih hsorted.2, if_neg hev, if_neg hev]
    · rw [if_neg hlt]
      by_cases hev : e.amount = v <;>
        simp [List.filter_cons, hev]

theorem sortAsc_filter_amount (l : List Entry) (v : Int) :
    (sortAscByAmount l).filter (fun x => decide (x.amount = v)) =
      l.filter (fun x => decide (x.amount = v)) := by
  induction l with
  | nil => rfl
  | cons e es ih =>
    unfold sortAscByAmount
    rw [insAsc_filter_amount e (sortAscByAmount es) v (sortAsc_pairwise es)]
    by_cases hev : e.amount = v
    · rw [if_pos hev, ih]
      simp [List.filter_cons, hev]
    · rw [if_neg hev, ih]
      simp [List.filter_cons, hev]

/-! ### Lemmas about the flexible-key split and the budget load -/

theorem splitParts_ne_nil (sep : Char) (l : List Char) :
    splitParts sep l ≠ [] := by
  cases l with
  | nil => simp [splitParts]
  | cons c rest =>
    unfold splitParts
    cases splitParts sep rest with
    | nil => simp
    | cons p ps =>
      by_cases h : c = sep <;> simp [h]

theorem splitParts_length (sep : Char) (l : List Char) :
    (splitParts sep l).length = l.count sep + 1 := by
  induction l with
  | nil => simp [splitParts]
  | cons c rest ih =>
    unfold splitParts
    cases hrest : splitParts sep rest with
    | nil => exact absurd hrest (splitParts_ne_nil sep rest)
    | cons p ps =>
      rw [hrest] at ih
      by_cases h : c = sep
      · simp only [if_pos h, List.length_cons] at ih ⊢
        rw [List.count_cons]
        simp [h]
        omega
      · simp only [if_neg h, List.length_cons] at ih ⊢
        rw [List.count_cons]
        have : (rest.count sep : Nat) + 1 = ps.length + 1 := by
          simp at ih; omega
        simp [h]
        omega

theorem splitParts_no_sep (sep : Char) (l : List Char) (h : sep ∉ l) :
    splitParts sep l = [l] := by
  induction l with
  | nil => rfl
  | cons c rest ih =>
    have hc : c ≠ sep := fun hc => h (hc ▸ List.mem_cons_self c rest)
    have hrest : sep ∉ rest := fun hr => h (List.mem_cons_of_mem c hr)
    unfold splitParts
    rw [ih hrest]
    simp [fun hcs => hc hcs]

theorem splitParts_single_sep (sep : Char) (as bs : List Char)
    (ha : sep ∉ as) (hb : sep ∉ bs) :
    splitParts sep (as ++ sep :: bs) = [as, bs] := by
  induction as with
  | nil =>
    simp only [List.nil_append]
    unfold splitParts
    rw [splitParts_no_sep sep bs hb]
    simp
  | cons a as ih =>
    have hane : a ≠ sep := fun hc => ha (hc ▸ List.mem_cons_self a as)
    have ha' : sep ∉ as := fun hr => ha (List.mem_cons_of_mem a hr)
    simp only [List.cons_append]
    unfold splitParts
    rw [ih ha']
    simp [fun hcs => hane hcs]

theorem splitFlexibleKey_no_colon (key : String) (h : ':' ∉ key.data) :
    splitFlexibleKey key = Except.ok ("Other", key) := by
  unfold splitFlexibleKey
  rw [if_neg h]

theorem splitFlexibleKey_one_colon (as bs : List Char)
    (ha : ':' ∉ as) (hb : ':' ∉ bs) :
    splitFlexibleKey (String.mk (as ++ ':' :: bs)) =
      Except.ok (String.mk as, String.mk bs) := by
  unfold splitFlexibleKey
  have hdata : (String.mk (as ++ ':' :: bs)).data = as ++ ':' :: bs := rfl
  rw [hdata]
  rw [if_pos (by simp)]
  rw [splitParts_single_sep ':' as bs ha hb]
  rfl

theorem splitFlexibleKey_ok_of_count (key : String)
    (h : key.data.count ':' ≤ 1) :
    ∃ p, splitFlexibleKey key = Except.ok p := by
  by_cases hmem : ':' ∈ key.data
  · have hup : 1 ≤ key.data.count ':' := List.one_le_count_iff.mpr hmem
    have hc : key.data.count ':' = 1 := le_antisymm h hup
    have hlen : (splitParts ':' key.data).length = 2 := by
      rw [splitParts_length, hc]
    unfold splitFlexibleKey
    rw [if_pos hmem]
    match hps : splitParts ':' key.data with
    | [a, b] => exact ⟨(String.mk a, String.mk b), rfl⟩
    | [] => rw [hps] at hlen; simp at hlen
    | [a] => rw [hps] at hlen; simp at hlen
    | a :: b :: c :: rest => rw [hps] at hlen; simp at hlen
  · exact ⟨("Other", key), splitFlexibleKey_no_colon key hmem⟩

theorem buildFlexibleAux_ok (rs : List BudgetRow)
    (d : List (String × List (String × Int)))
    (h : ∀ r ∈ rs, ∀ key, r.subcategory = some key →
      ∃ p, splitFlexibleKey key = Except.ok p) :
    ∃ out, buildFlexibleAux rs d = Except.ok out := by
  induction rs generalizing d with
  | nil => exact ⟨d, rfl⟩
  | cons r rest ih =>
    have hrest : ∀ q ∈ rest, ∀ key, q.subcategory = some key →
        ∃ p, splitFlexibleKey key = Except.ok p :=
      fun q hq => h q (List.mem_cons_of_mem r hq)
    unfold buildFlexibleAux
    cases hsub : r.subcategory with
    | none => exact ih d hrest
    | some key =>
      obtain ⟨p, hp⟩ := h r (List.mem_cons_self r rest) key hsub
      obtain ⟨m, sc⟩ := p
      simp only [hp]
      exact ih _ hrest

theorem get_budgets_ok_of_keys (t : BudgetTable)
    (h : ∀ key ∈ flexible_categories t, key.data.count ':' ≤ 1) :
    exceptOk (get_budgets t) = true := by
  obtain ⟨out, hout⟩ := buildFlexibleAux_ok (categoryRows "Flexible" t) []
    (fun r hr key hkey =>
      splitFlexibleKey_ok_of_count key
        (h key (List.mem_filterMap.mpr ⟨r, hr, hkey⟩)))
  unfold get_budgets buildFlexibleDict
  rw [hout]
  rfl

/-! ### Unfolding lemmas for `calculate_statistics` -/

theorem calculate_statistics_empty (t : BudgetTable) (asOf : EDate)
    (b : Budgets) (hb : get_budgets t = Except.ok b) :
    calculate_statistics [] t asOf =
      Except.ok
        { today_total := 0, monthly_total := 0, flexible_spent := 0,
          flexible_remaining := b.flexibleBudget, savings := b.savings,
          monthly_by_category := [], top_expenses := [] } := by
  unfold calculate_statistics
  rw [hb]
  rfl

theorem calculate_statistics_nonempty (df : List Entry) (t : BudgetTable)
    (asOf : EDate) (b : Budgets) (hb : get_budgets t = Except.ok b)
    (hdf : df ≠ []) :
    calculate_statistics df t asOf = Except.ok (stats_core df t b asOf) := by
  cases df with
  | nil => exact absurd rfl hdf
  | cons e es =>
    unfold calculate_statistics
    rw [hb]
    rfl

theorem calculate_statistics_ok_budgets (df : List Entry) (t : BudgetTable)
    (asOf : EDate) (s : Stats)
    (h : calculate_statistics df t asOf = Except.ok s) :
    ∃ b, get_budgets t = Except.ok b := by
  unfold calculate_statistics at h
  cases hg : get_budgets t with
  | error e => rw [hg] at h; exact absurd h (by simp)
  | ok b => exact ⟨b, rfl⟩

theorem get_budgets_fields (t : BudgetTable) (b : Budgets)
    (h : get_budgets t = Except.ok b) :
    b.salary = firstAmount "Salary" t ∧ b.mandatory = mandatoryDict t ∧
    b.flexibleBudget = firstAmount "Flexible Budget" t ∧
    b.savings = firstAmount "Savings" t := by
  unfold get_budgets at h
  cases hf : buildFlexibleDict t with
  | error e => rw [hf] at h; exact absurd h (by simp)
  | ok flex =>
    rw [hf] at h
    cases Except.ok.inj h
    exact ⟨rfl, rfl, rfl, rfl⟩

/-! ### Shared concrete fixtures for witnesses and counterexamples -/

/-- A small well-formed budget table (the §8 scenario of the spec, with the
two derived-scalar rows present as seeded by `init_db`). -/
def wTbl : BudgetTable :=
  [⟨"Salary", none, 100000⟩, ⟨"Mandatory", some "Home Rent", 13000⟩,
   ⟨"Flexible", some "Food:Lunch", 1000⟩, ⟨"Flexible Budget", none, 18260⟩,
   ⟨"Savings", none, 53740⟩]

/-- The budgets dict `get_budgets` reads off `wTbl`. -/
def wBudgets : Budgets :=
  ⟨100000, [("Home Rent", 13000)], [("Food", [("Lunch", 1000)])], 18260, 53740⟩

def wDate : EDate := ⟨2024, 3, 5⟩

/-- One cleaned current-month ledger row. -/
def wEntry : Entry := ⟨wDate, "Food:Lunch", 500, "2024-03", some 2024⟩

/-! ### The claims -/

/-- Claim C1: for every budget table, `calculate_flexible_budget` writes
`Flexible Budget = Σ (flexible planned amounts)` and
`Savings = Salary − (Σ Mandatory + Flexible Budget)` into the derived-scalar
rows (read back, as the code reads them, as the first row of the matching
category — present in every table of the canonical schema), and running it
twice on unchanged inputs equals running it once. -/
theorem C1_recalculate_formulas_and_idempotence (t : BudgetTable) :
    calculate_flexible_budget (calculate_flexible_budget t) =
      calculate_flexible_budget t ∧
    ((∃ r ∈ t, r.category = "Flexible Budget") →
      firstAmount "Flexible Budget" (calculate_flexible_budget t) =
        rowTotal "Flexible" t) ∧
    ((∃ r ∈ t, r.category = "Savings") →
      firstAmount "Savings" (calculate_flexible_budget t) =
        firstAmount "Salary" t -
          (rowTotal "Mandatory" t + rowTotal "Flexible" t)) := by
  refine ⟨calculate_flexible_budget_idem t, ?_, ?_⟩
  · intro h
    simp only [calculate_flexible_budget]
    exact firstAmount_recalc_FB _ _ t h
  · intro h
    simp only [calculate_flexible_budget]
    exact firstAmount_recalc_Savings _ _ t h

theorem C1_witness :
    firstAmount "Flexible Budget" (calculate_flexible_budget wTbl) =
      rowTotal "Flexible" wTbl ∧
    firstAmount "Savings" (calculate_flexible_budget wTbl) =
      firstAmount "Salary" wTbl -
        (rowTotal "Mandatory" wTbl + rowTotal "Flexible" wTbl) :=
  ⟨(C1_recalculate_formulas_and_idempotence wTbl).2.1 (by decide),
   (C1_recalculate_formulas_and_idempotence wTbl).2.2 (by decide)⟩

/-- Claim C5: `add_expense` with `amount <= 0` raises the validation error
before creating the entry or touching the store (the `Except.error` result
carries no ledger: the caller keeps the old one, and `save_expenses` is
never reached); with a positive amount no such error is raised and exactly
one entry is appended. -/
theorem C5_add_expense_validation (l : List StoredEntry) (d : EDate)
    (c : String) (a : Int) :
    (a ≤ 0 → add_expense l d c a = Except.error "Amount must be positive.") ∧
    (0 < a → add_expense l d c a = Except.ok (l ++ [mkStoredEntry d c a])) := by
  constructor
  · intro h
    unfold add_expense
    rw [if_pos h]
  · intro h
    unfold add_expense
    rw [if_neg (by omega)]

theorem C5_witness :
    add_expense [] wDate "Food:Lunch" 0 =
      Except.error "Amount must be positive." ∧
    add_expense [] wDate "Food:Lunch" 500 =
      Except.ok ([] ++ [mkStoredEntry wDate "Food:Lunch" 500]) :=
  ⟨(C5_add_expense_validation [] wDate "Food:Lunch" 0).1 (by decide),
   (C5_add_expense_validation [] wDate "Food:Lunch" 500).2 (by decide)⟩

/-- Claim C6 (amended): `add_expense` performs no category-membership
validation at all — a category outside the plan's flexible category list is
accepted exactly like any other as long as the amount is positive.  Only
the presentation layer (`st.selectbox` over `tracker.flexible_categories`)
restricts the offered choices. -/
theorem C6_no_category_validation (t : BudgetTable) (l : List StoredEntry)
    (d : EDate) (c : String) (a : Int)
    (_hc : c ∉ flexible_categories t) (ha : 0 < a) :
    add_expense l d c a = Except.ok (l ++ [mkStoredEntry d c a]) := by
  unfold add_expense
  rw [if_neg (by omega)]

/-- Claim C6 counterexample: `"Snacks"` is not a flexible category of
`wTbl`, yet `add_expense` accepts it — the claimed rejection does not
happen. -/
theorem C6_counterexample :
    "Snacks" ∉ flexible_categories wTbl ∧
    add_expense [] wDate "Snacks" 300 =
      Except.ok [mkStoredEntry wDate "Snacks" 300] :=
  ⟨by decide, rfl⟩

theorem C6_witness :
    "Snacks" ∉ flexible_categories wTbl ∧
    add_expense [] wDate "Snacks" 300 =
      Except.ok ([] ++ [mkStoredEntry wDate "Snacks" 300]) :=
  ⟨by decide,
   C6_no_category_validation wTbl [] wDate "Snacks" 300 (by decide) (by decide)⟩

/-- Claim C8: on the empty frame, `calculate_statistics` returns all-zero
sums, `flexible_remaining` equal to the stored `Flexible Budget` scalar,
`savings` equal to the stored static `Savings` scalar, and empty
`monthly_by_category` and `top_expenses`. -/
theorem C8_empty_ledger_defaults (t : BudgetTable) (asOf : EDate)
    (b : Budgets) (hb : get_budgets t = Except.ok b) :
    calculate_statistics [] t asOf =
      Except.ok
        { today_total := 0, monthly_total := 0, flexible_spent := 0,
          flexible_remaining := b.flexibleBudget, savings := b.savings,
          monthly_by_category := [], top_expenses := [] } :=
  calculate_statistics_empty t asOf b hb

theorem C8_witness :
    calculate_statistics [] wTbl wDate =
      Except.ok
        { today_total := 0, monthly_total := 0, flexible_spent := 0,
          flexible_remaining := wBudgets.flexibleBudget,
          savings := wBudgets.savings,
          monthly_by_category := [], top_expenses := [] } :=
  C8_empty_ledger_defaults wTbl wDate wBudgets rfl

/-- Claim C9: every entry created by `add_expense` stores
`month = date.strftime("%Y-%m")` and `year = date.year`, both derived from
the very date value at creation time. -/
theorem C9_derived_fields_consistent (l : List StoredEntry) (d : EDate)
    (c : String) (a : Int) (h : 0 < a) :
    ∃ e, add_expense l d c a = Except.ok (l ++ [e]) ∧
      e.month = fmtYearMonth d ∧ e.year = RawCell.ok (Int.ofNat d.year) ∧
      e.date = RawCell.ok d := by
  refine ⟨mkStoredEntry d c a, ?_, rfl, rfl, rfl⟩
  unfold add_expense
  rw [if_neg (by omega)]

theorem C9_witness :
    ∃ e, add_expense [] wDate "Food:Lunch" 500 = Except.ok ([] ++ [e]) ∧
      e.month = fmtYearMonth wDate ∧
      e.year = RawCell.ok (Int.ofNat wDate.year) ∧
      e.date = RawCell.ok wDate :=
  C9_derived_fields_consistent [] wDate "Food:Lunch" 500 (by decide)

/-- Claim C4 (amended): the load splits a flexible subcategory key at its
colon — a key with exactly one `:` becomes `(main, sub)` and a key without
`:` is nested under the default main-category `"Other"` — and the load
succeeds whenever every stored flexible key holds at most one `:`.  (As
stated the claim is false: `split(":")` has no maxsplit, so a key with two
or more colons makes the two-variable unpacking — and hence the whole
load — fail; see the counterexample.) -/
theorem C4_key_split_behaviour :
    (∀ key : String, ':' ∉ key.data →
      splitFlexibleKey key = Except.ok ("Other", key)) ∧
    (∀ as bs : List Char, ':' ∉ as → ':' ∉ bs →
      splitFlexibleKey (String.mk (as ++ ':' :: bs)) =
        Except.ok (String.mk as, String.mk bs)) ∧
    (∀ t : BudgetTable, (∀ key ∈ flexible_categories t, key.data.count ':' ≤ 1) →
      exceptOk (get_budgets t) = true) :=
  ⟨splitFlexibleKey_no_colon, splitFlexibleKey_one_colon, get_budgets_ok_of_keys⟩

/-- Claim C4 counterexample: a stored flexible key with two colons makes
`get_budgets` fail — the load is not total. -/
theorem C4_counterexample :
    exceptOk (get_budgets [⟨"Flexible", some "A:B:C", 1⟩]) = false := rfl

theorem C4_witness :
    splitFlexibleKey "Lunch" = Except.ok ("Other", "Lunch") ∧
    splitFlexibleKey "Food:Lunch" = Except.ok ("Food", "Lunch") ∧
    exceptOk (get_budgets wTbl) = true :=
  ⟨C4_key_split_behaviour.1 "Lunch" (by decide),
   C4_key_split_behaviour.2.1 "Food".data "Lunch".data (by decide) (by decide),
   C4_key_split_behaviour.2.2 wTbl (by decide)⟩

/-- Claim C7 (amended): an entry whose amount is unparseable or missing, or
whose date is missing, is silently dropped from the whole statistics
pipeline — the result over a ledger containing it equals the result over
the ledger without it (excluded entirely, not counted as zero).  (As
stated the claim is false: a *present but unparseable* date makes
`pd.to_datetime` — and hence the pipeline — raise; see the
counterexample.) -/
theorem C7_bad_rows_dropped (l1 l2 : List StoredEntry) (e : StoredEntry)
    (t : BudgetTable) (asOf : EDate)
    (hdate : e.date ≠ RawCell.malformed)
    (hdrop : e.date = RawCell.null ∨ e.amount = RawCell.null ∨
      e.amount = RawCell.malformed) :
    pipeline_statistics (l1 ++ e :: l2) t asOf =
      pipeline_statistics (l1 ++ l2) t asOf := by
  have hmal : has_malformed_date e = false := by
    unfold has_malformed_date
    cases hd : e.date with
    | malformed => exact absurd hd hdate
    | null => rfl
    | ok d => rfl
  have hparse : parse_row e = none := by
    unfold parse_row
    rcases hdrop with hd | ha | ha
    · rw [hd]
    · cases hd : e.date with
      | malformed => exact absurd hd hdate
      | null => rfl
      | ok d => rw [ha]
    · cases hd : e.date with
      | malformed => exact absurd hd hdate
      | null => rfl
      | ok d => rw [ha]
  have hdf : get_expenses_df (l1 ++ e :: l2) = get_expenses_df (l1 ++ l2) := by
    unfold get_expenses_df
    rw [List.any_append, List.any_cons, hmal, List.any_append,
      List.filterMap_append, List.filterMap_cons, hparse,
      List.filterMap_append]
    simp only [Bool.false_or]
  unfold pipeline_statistics
  rw [hdf]

/-- Claim C7 counterexample: one ledger row with a present-but-unparseable
date makes the statistics pipeline fail instead of dropping the row. -/
theorem C7_counterexample :
    exceptOk
      (pipeline_statistics
        [⟨RawCell.malformed, "Food:Lunch", RawCell.ok 5, "2024-03",
          RawCell.ok 2024⟩] wTbl wDate) = false := rfl

theorem C7_witness :
    pipeline_statistics
        ([] ++ ⟨RawCell.ok wDate, "Food:Lunch", RawCell.malformed, "2024-03",
          RawCell.ok 2024⟩ :: [mkStoredEntry wDate "Food:Lunch" 500]) wTbl wDate =
      pipeline_statistics ([] ++ [mkStoredEntry wDate "Food:Lunch" 500]) wTbl wDate :=
  C7_bad_rows_dropped [] [mkStoredEntry wDate "Food:Lunch" 500]
    ⟨RawCell.ok wDate, "Food:Lunch", RawCell.malformed, "2024-03",
      RawCell.ok 2024⟩ wTbl wDate (by decide) (Or.inr (Or.inr rfl))

/-- Claim C2 (amended): over a non-empty cleaned frame, and provided the
plan's flexible category list has no duplicate names, `flexible_spent` is
the sum over `monthly_by_category` restricted to keys in that list (spend
on categories outside the list is excluded), `flexible_remaining` is the
stored `Flexible Budget` minus `flexible_spent`, and `savings` is
`Salary − Σ Mandatory − flexible_spent`.  (As stated the claim is false:
with a duplicated flexible row the code adds that category's monthly total
once per occurrence, and on the empty frame `savings` is the static stored
scalar instead of the formula; see the counterexample.) -/
theorem C2_statistics_formulas (df : List Entry) (t : BudgetTable)
    (asOf : EDate) (b : Budgets) (s : Stats)
    (hb : get_budgets t = Except.ok b) (hdf : df ≠ [])
    (hnd : (flexible_categories t).Nodup)
    (hok : calculate_statistics df t asOf = Except.ok s) :
    s.flexible_spent =
      specFlexibleSpent s.monthly_by_category (flexible_categories t) ∧
    s.flexible_remaining = b.flexibleBudget - s.flexible_spent ∧
    s.savings =
      b.salary - (b.mandatory.map (fun p => p.2)).sum - s.flexible_spent := by
  rw [calculate_statistics_nonempty df t asOf b hb hdf] at hok
  have hs : s = stats_core df t b asOf := (Except.ok.inj hok).symm
  subst hs
  refine ⟨?_, rfl, rfl⟩
  show flexible_spent_of t df asOf =
    specFlexibleSpent (monthly_by_category_of df asOf) (flexible_categories t)
  unfold flexible_spent_of specFlexibleSpent
  exact listGet_sum_eq_restriction _ _
    (monthly_by_category_keys_nodup df asOf) hnd

/-- Claim C2 counterexample: with a duplicated flexible subcategory row,
`flexible_spent` (14) is twice the restriction sum over
`monthly_by_category` (7) — the claimed restriction formula fails. -/
theorem C2_counterexample :
    (calculate_statistics [⟨wDate, "Food:Lunch", 7, "2024-03", some 2024⟩]
        [⟨"Salary", none, 100⟩, ⟨"Flexible", some "Food:Lunch", 10⟩,
         ⟨"Flexible", some "Food:Lunch", 10⟩, ⟨"Flexible Budget", none, 20⟩,
         ⟨"Savings", none, 70⟩] wDate).map (fun s => s.flexible_spent) =
      Except.ok 14 ∧
    (calculate_statistics [⟨wDate, "Food:Lunch", 7, "2024-03", some 2024⟩]
        [⟨"Salary", none, 100⟩, ⟨"Flexible", some "Food:Lunch", 10⟩,
         ⟨"Flexible", some "Food:Lunch", 10⟩, ⟨"Flexible Budget", none, 20⟩,
         ⟨"Savings", none, 70⟩] wDate).map
      (fun s => specFlexibleSpent s.monthly_by_category
        (flexible_categories
          [⟨"Salary", none, 100⟩, ⟨"Flexible", some "Food:Lunch", 10⟩,
           ⟨"Flexible", some "Food:Lunch", 10⟩, ⟨"Flexible Budget", none, 20⟩,
           ⟨"Savings", none, 70⟩])) = Except.ok 7 ∧
    (14 : Int) ≠ 7 :=
  ⟨rfl, rfl, by decide⟩

theorem C2_witness :
    ∃ s, calculate_statistics [wEntry] wTbl wDate = Except.ok s ∧
      s.flexible_spent =
        specFlexibleSpent s.monthly_by_category (flexible_categories wTbl) ∧
      s.flexible_remaining = wBudgets.flexibleBudget - s.flexible_spent ∧
      s.savings = wBudgets.salary -
        (wBudgets.mandatory.map (fun p => p.2)).sum - s.flexible_spent := by
  have hok : calculate_statistics [wEntry] wTbl wDate =
      Except.ok (stats_core [wEntry] wTbl wBudgets wDate) :=
    calculate_statistics_nonempty [wEntry] wTbl wDate wBudgets rfl
      (List.cons_ne_nil _ _)
  exact ⟨_, hok,
    C2_statistics_formulas [wEntry] wTbl wDate wBudgets _ rfl
      (List.cons_ne_nil _ _) (by decide) hok⟩

/-- Claim C3: `top_expenses` has length
`min 5 (number of current-month rows)`, is sorted descending by amount,
every element is a current-month row, and equal-amount rows appear in their
original frame order (stable tie-break): pandas' descending sort reverses
the rows before and the indexer after a stable ascending argsort, so for
every amount value, filtering the full descending ordering yields exactly
the current-month rows of that amount in frame order. -/
theorem C3_top_expenses_shape (df : List Entry) (t : BudgetTable)
    (asOf : EDate) (s : Stats)
    (hok : calculate_statistics df t asOf = Except.ok s) :
    s.top_expenses.length = min 5 (current_month_df df asOf).length ∧
    s.top_expenses.Pairwise (fun a b => b.amount ≤ a.amount) ∧
    (∀ e ∈ s.top_expenses, e ∈ current_month_df df asOf) ∧
    s.top_expenses =
      ((sortAscByAmount (current_month_df df asOf).reverse).reverse).take 5 ∧
    (∀ v : Int,
      ((sortAscByAmount (current_month_df df asOf).reverse).reverse).filter
        (fun x => decide (x.amount = v)) =
      (current_month_df df asOf).filter (fun x => decide (x.amount = v))) := by
  obtain ⟨b, hb⟩ := calculate_statistics_ok_budgets df t asOf s hok
  have htie : ∀ v : Int,
      ((sortAscByAmount (current_month_df df asOf).reverse).reverse).filter
        (fun x => decide (x.amount = v)) =
      (current_month_df df asOf).filter (fun x => decide (x.amount = v)) := by
    intro v
    rw [List.filter_reverse, sortAsc_filter_amount, List.filter_reverse,
      List.reverse_reverse]
  have htop : s.top_expenses =
      ((sortAscByAmount (current_month_df df asOf).reverse).reverse).take 5 := by
    cases df with
    | nil =>
      rw [calculate_statistics_empty t asOf b hb] at hok
      have hs : s = _ := (Except.ok.inj hok).symm
      subst hs
      rfl
    | cons e es =>
      rw [calculate_statistics_nonempty (e :: es) t asOf b hb
        (List.cons_ne_nil _ _)] at hok
      have hs : s = stats_core (e :: es) t b asOf := (Except.ok.inj hok).symm
      subst hs
      rfl
  refine ⟨?_, ?_, ?_, htop, htie⟩
  · rw [htop, List.length_take, List.length_reverse,
      (sortAsc_perm (current_month_df df asOf).reverse).length_eq,
      List.length_reverse]
  · rw [htop]
    apply List.Pairwise.sublist (List.take_sublist _ _)
    rw [List.pairwise_reverse]
    exact sortAsc_pairwise _
  · intro e he
    rw [htop] at he
    have h1 : e ∈ (sortAscByAmount (current_month_df df asOf).reverse).reverse :=
      (List.take_sublist _ _).subset he
    rw [List.mem_reverse] at h1
    have h2 : e ∈ (current_month_df df asOf).reverse :=
      (sortAsc_perm _).mem_iff.mp h1
    rw [List.mem_reverse] at h2
    exact h2

theorem C3_witness :
    ∃ s, calculate_statistics
        [⟨⟨2024, 3, 1⟩, "Food:Lunch", 5, "2024-03", some 2024⟩,
         ⟨⟨2024, 3, 2⟩, "Food:Coffee", 5, "2024-03", some 2024⟩]
        wTbl wDate = Except.ok s ∧
      s.top_expenses.length =
        min 5 (current_month_df
          [⟨⟨2024, 3, 1⟩, "Food:Lunch", 5, "2024-03", some 2024⟩,
           ⟨⟨2024, 3, 2⟩, "Food:Coffee", 5, "2024-03", some 2024⟩] wDate).length ∧
      s.top_expenses.Pairwise (fun a b => b.amount ≤ a.amount) ∧
      (∀ e ∈ s.top_expenses,
        e ∈ current_month_df
          [⟨⟨2024, 3, 1⟩, "Food:Lunch", 5, "2024-03", some 2024⟩,
           ⟨⟨2024, 3, 2⟩, "Food:Coffee", 5, "2024-03", some 2024⟩] wDate) ∧
      s.top_expenses =
        [⟨⟨2024, 3, 1⟩, "Food:Lunch", 5, "2024-03", some 2024⟩,
         ⟨⟨2024, 3, 2⟩, "Food:Coffee", 5, "2024-03", some 2024⟩] := by
  have hok : calculate_statistics
      [⟨⟨2024, 3, 1⟩, "Food:Lunch", 5, "2024-03", some 2024⟩,
       ⟨⟨2024, 3, 2⟩, "Food:Coffee", 5, "2024-03", some 2024⟩] wTbl wDate =
      Except.ok (stats_core
        [⟨⟨2024, 3, 1⟩, "Food:Lunch", 5, "2024-03", some 2024⟩,
         ⟨⟨2024, 3, 2⟩, "Food:Coffee", 5, "2024-03", some 2024⟩]
        wTbl wBudgets wDate) :=
    calculate_statistics_nonempty _ wTbl wDate wBudgets rfl
      (List.cons_ne_nil _ _)
  obtain ⟨h1, h2, h3, _, _⟩ := C3_top_expenses_shape _ wTbl wDate _ hok
  exact ⟨_, hok, h1, h2, h3, rfl⟩

/-- Claim C10 (amended): after `calculate_flexible_budget` has run on a
table that contains a `"Flexible Budget"` row and a `"Savings"` row and
whose `Mandatory` subcategory names are pairwise distinct, the statistics
over any non-empty cleaned frame satisfy
`savings = static stored Savings + flexible_remaining`; on the empty frame
the identity does not hold — there `savings` equals the static stored
`Savings` alone and `flexible_remaining` equals the full stored
`Flexible Budget`, so the actual-spend savings figure jumps by the
`Flexible Budget` between an empty frame and a frame with zero flexible
spend.  (As stated — for *every* plan — the claim is false: with duplicate
`Mandatory` subcategory rows the dict-based mandatory total of the
statistics differs from the row-based total of the recalculation; see the
counterexample.) -/
theorem C10_savings_decomposition (t : BudgetTable) (df : List Entry)
    (asOf : EDate) (b : Budgets) (s : Stats)
    (hFB : ∃ r ∈ t, r.category = "Flexible Budget")
    (hSv : ∃ r ∈ t, r.category = "Savings")
    (hNd : (mandNames t).Nodup)
    (hb : get_budgets (calculate_flexible_budget t) = Except.ok b)
    (hdf : df ≠ [])
    (hok : calculate_statistics df (calculate_flexible_budget t) asOf =
      Except.ok s) :
    s.savings =
      firstAmount "Savings" (calculate_flexible_budget t) +
        s.flexible_remaining ∧
    (∀ s0, calculate_statistics [] (calculate_flexible_budget t) asOf =
        Except.ok s0 →
      s0.savings = firstAmount "Savings" (calculate_flexible_budget t) ∧
      s0.flexible_remaining =
        firstAmount "Flexible Budget" (calculate_flexible_budget t)) := by
  obtain ⟨hsal, hman, hfb, hsv⟩ :=
    get_budgets_fields (calculate_flexible_budget t) b hb
  have hSavVal : firstAmount "Savings" (calculate_flexible_budget t) =
      firstAmount "Salary" t -
        (rowTotal "Mandatory" t + rowTotal "Flexible" t) := by
    simp only [calculate_flexible_budget]
    exact firstAmount_recalc_Savings _ _ t hSv
  have hFBVal : firstAmount "Flexible Budget" (calculate_flexible_budget t) =
      rowTotal "Flexible" t := by
    simp only [calculate_flexible_budget]
    exact firstAmount_recalc_FB _ _ t hFB
  have hSalVal : firstAmount "Salary" (calculate_flexible_budget t) =
      firstAmount "Salary" t := by
    simp only [calculate_flexible_budget]
    exact firstAmount_recalc_other "Salary" _ _ t (by decide) (by decide)
  have hManVal : ((mandatoryDict (calculate_flexible_budget t)).map
      (fun p => p.2)).sum = rowTotal "Mandatory" t := by
    have hnames : mandNames (calculate_flexible_budget t) = mandNames t := by
      unfold mandNames
      simp only [calculate_flexible_budget]
      rw [categoryRows_recalc_other "Mandatory" _ _ t (by decide) (by decide)]
    have hrt : rowTotal "Mandatory" (calculate_flexible_budget t) =
        rowTotal "Mandatory" t := by
      simp only [calculate_flexible_budget]
      exact rowTotal_recalc_other "Mandatory" _ _ t (by decide) (by decide)
    rw [mandatoryDict_sum_of_nodup (calculate_flexible_budget t)
      (hnames ▸ hNd), hrt]
  constructor
  · rw [calculate_statistics_nonempty df _ asOf b hb hdf] at hok
    have hs : s = stats_core df (calculate_flexible_budget t) b asOf :=
      (Except.ok.inj hok).symm
    subst hs
    show b.salary - (b.mandatory.map (fun p => p.2)).sum -
        flexible_spent_of (calculate_flexible_budget t) df asOf =
      firstAmount "Savings" (calculate_flexible_budget t) +
        (b.flexibleBudget -
          flexible_spent_of (calculate_flexible_budget t) df asOf)
    rw [hsal, hman, hfb, hSalVal, hManVal, hSavVal, hFBVal]
    omega
  · intro s0 h0
    rw [calculate_statistics_empty _ asOf b hb] at h0
    have hs0 : s0 = _ := (Except.ok.inj h0).symm
    subst hs0
    exact ⟨hsv, hfb⟩

/-- Claim C10 counterexample: with a duplicated `Mandatory` subcategory the
non-empty-frame `savings` (80) differs from static `Savings` (65) plus
`flexible_remaining` (5). -/
theorem C10_counterexample :
    (calculate_statistics [⟨⟨2023, 1, 1⟩, "Other", 3, "2023-01", some 2023⟩]
        (calculate_flexible_budget
          [⟨"Salary", none, 100⟩, ⟨"Mandatory", some "Rent", 10⟩,
           ⟨"Mandatory", some "Rent", 20⟩, ⟨"Flexible", some "Food:Lunch", 5⟩,
           ⟨"Flexible Budget", none, 0⟩, ⟨"Savings", none, 0⟩]) wDate).map
      (fun s => s.savings) = Except.ok 80 ∧
    (calculate_statistics [⟨⟨2023, 1, 1⟩, "Other", 3, "2023-01", some 2023⟩]
        (calculate_flexible_budget
          [⟨"Salary", none, 100⟩, ⟨"Mandatory", some "Rent", 10⟩,
           ⟨"Mandatory", some "Rent", 20⟩, ⟨"Flexible", some "Food:Lunch", 5⟩,
           ⟨"Flexible Budget", none, 0⟩, ⟨"Savings", none, 0⟩]) wDate).map
      (fun s => s.flexible_remaining) = Except.ok 5 ∧
    firstAmount "Savings"
      (calculate_flexible_budget
        [⟨"Salary", none, 100⟩, ⟨"Mandatory", some "Rent", 10⟩,
         ⟨"Mandatory", some "Rent", 20⟩, ⟨"Flexible", some "Food:Lunch", 5⟩,
         ⟨"Flexible Budget", none, 0⟩, ⟨"Savings", none, 0⟩]) = 65 ∧
    (80 : Int) ≠ 65 + 5 :=
  ⟨rfl, rfl, rfl, by decide⟩

theorem C10_witness :
    ∃ s, calculate_statistics [wEntry] (calculate_flexible_budget wTbl) wDate =
        Except.ok s ∧
      s.savings =
        firstAmount "Savings" (calculate_flexible_budget wTbl) +
          s.flexible_remaining := by
  have hb : get_budgets (calculate_flexible_budget wTbl) =
      Except.ok ⟨100000, [("Home Rent", 13000)],
        [("Food", [("Lunch", 1000)])], 1000, 86000⟩ := rfl
  have hok : calculate_statistics [wEntry] (calculate_flexible_budget wTbl)
      wDate = Except.ok (stats_core [wEntry] (calculate_flexible_budget wTbl)
        ⟨100000, [("Home Rent", 13000)], [("Food", [("Lunch", 1000)])],
          1000, 86000⟩ wDate) :=
    calculate_statistics_nonempty _ _ _ _ hb (List.cons_ne_nil _ _)
  exact ⟨_, hok,
    (C10_savings_decomposition wTbl [wEntry] wDate _ _ (by decide) (by decide)
      (by decide) hb (List.cons_ne_nil _ _) hok).1⟩
